import Mathlib

/-!
Formal model of the cache-aside repository implemented in
`src/cache/gorm_cache.go` (type `GormCacheRepository[T, ID]`) on top of a
cache2go cache table, together with theorems settling the specification
claims about its read/write/invalidation protocol.

The embedding is shallow:

* the cache2go `CacheTable` becomes an association list from string keys to
  cache items; `Value`, `Add`, `Delete` and `Flush` become `tableValue`,
  `tableAdd`, `tableDelete` and `tableFlush` (insertion overwrites the
  previous entry for the key, matching the map write in cache2go);
* the single `interface{}` data slot of a cache item is modelled by the
  tagged type `CacheVal` (`entity` for a `*T` written by `GetByID`, `Save`
  or `BatchGet`, `notFound` for the `NotFound{}` marker, `collection` for
  the `[]*T` written by `GetAll`); a Go type assertion that would panic at
  read time is modelled by the distinguished error `Err.castFault`;
* the GORM database handle `r.db` becomes an oracle `Store` of pure
  functions, one per query shape used by the repository; every repository
  operation additionally returns the list of store calls it performed, so
  that "no store access" claims are statements about that trace;
* `fmt.Sprintf("%v", id)` in `buildCacheKey` becomes the repository field
  `fmtID : ID → String` (instantiated with `Nat.repr` for the `uint` ids
  of the bundled example); `buildCacheKeyFromEntity` returns `""` exactly
  as the Go source does.
-/

namespace Cache2Go

/-- Payload stored in a cache2go slot: a single entity (`*T`), the
`NotFound{}` negative marker, or the full-collection snapshot (`[]*T`). -/
inductive CacheVal (T : Type) where
  | entity (e : T)
  | notFound
  | collection (es : List T)
deriving DecidableEq

/-- One cache2go item: the stored payload together with the life span the
item was inserted with (`config.Expiration` in the Go code; `0` means the
entry never expires). -/
structure CacheItem (T : Type) where
  val : CacheVal T
  lifeSpan : Nat
deriving DecidableEq

/-- A cache2go table, as an association list from keys to items; the most
recent insertion for a key shadows earlier ones. -/
abbrev CacheTable (T : Type) := List (String × CacheItem T)

/-- `CacheTable.Value`: look an item up by key. -/
def tableValue {T : Type} (tbl : CacheTable T) (k : String) : Option (CacheItem T) :=
  List.lookup k tbl

/-- `CacheTable.Add`: insert an item, overwriting any previous entry
stored under the same key. -/
def tableAdd {T : Type} (tbl : CacheTable T) (k : String) (lifeSpan : Nat)
    (v : CacheVal T) : CacheTable T :=
  (k, ⟨v, lifeSpan⟩) :: tbl.filter (fun p => p.1 != k)

/-- `CacheTable.Delete`: remove the entry stored under a key (a no-op when
the key is absent; the repository ignores the returned error). -/
def tableDelete {T : Type} (tbl : CacheTable T) (k : String) : CacheTable T :=
  tbl.filter (fun p => p.1 != k)

/-- `CacheTable.Flush`: drop every entry of the table. -/
def tableFlush {T : Type} (_ : CacheTable T) : CacheTable T :=
  []

/-- Errors surfaced by repository operations: `gorm.ErrRecordNotFound`, any
other store error (carrying its message), or a Go type-assertion panic on a
cached value of an unexpected shape. -/
inductive Err where
  | recordNotFound
  | storeFailure (msg : String)
  | castFault
deriving DecidableEq

/-- The narrow persistent-store interface the repository consumes,
modelled as a pure oracle: one function per GORM query shape used in
`gorm_cache.go`. -/
structure Store (T ID : Type) where
  findByID : ID → Except Err T
  findAll : Except Err (List T)
  findByIDs : List ID → Except Err (List T)
  saveEntity : T → Except Err Unit
  deleteByID : ID → Except Err Unit

/-- Trace element recording one call made to the persistent store. -/
inductive StoreCall (T ID : Type) where
  | findByID (id : ID)
  | findAll
  | findByIDs (ids : List ID)
  | saveEntity (e : T)
  | deleteByID (id : ID)
deriving DecidableEq

/-- `CacheConfig` from `src/cache/repository.go`. -/
structure CacheConfig where
  tableName : String
  expiration : Nat
  useNotFoundCache : Bool
deriving DecidableEq

/-- `GormCacheRepository[T, ID]` from `src/cache/gorm_cache.go`: the store
handle, the cache configuration, and the formatting function underlying
`fmt.Sprintf("%v", id)` for the generic id type. -/
structure GormCacheRepository (T ID : Type) where
  db : Store T ID
  config : CacheConfig
  fmtID : ID → String

namespace GormCacheRepository

variable {T ID : Type}

/-- `buildCacheKey`: format the id (`fmt.Sprintf("%v", id)`). -/
def buildCacheKey (r : GormCacheRepository T ID) (id : ID) : String :=
  r.fmtID id

/-- `buildCacheKeyFromEntity`: the Go source leaves this unimplemented and
returns the empty string for every entity. -/
def buildCacheKeyFromEntity (r : GormCacheRepository T ID) (_ : T) : String :=
  ""

/-- `GetByID`: serve from the cache when the key is live (negative marker
gives `recordNotFound`), otherwise query the store by id, caching a found
entity, and caching a `notFound` marker on a not-found result when
`useNotFoundCache` is set. Returns the result, the updated cache table and
the trace of store calls. -/
def getByID (r : GormCacheRepository T ID) (tbl : CacheTable T) (id : ID) :
    Except Err T × CacheTable T × List (StoreCall T ID) :=
  match tableValue tbl (r.buildCacheKey id) with
  | some item =>
    match item.val with
    | .notFound => (.error .recordNotFound, tbl, [])
    | .entity e => (.ok e, tbl, [])
    | .collection _ => (.error .castFault, tbl, [])
  | none =>
    match r.db.findByID id with
    | .error e =>
      if r.config.useNotFoundCache ∧ e = Err.recordNotFound then
        (.error e, tableAdd tbl (r.buildCacheKey id) r.config.expiration .notFound,
          [.findByID id])
      else
        (.error e, tbl, [.findByID id])
    | .ok entity =>
      (.ok entity,
        tableAdd tbl (r.buildCacheKey id) r.config.expiration (.entity entity),
        [.findByID id])

/-- `GetAll`: serve the full collection from the reserved key `"all"` when
live, otherwise fetch it from the store and cache it under `"all"`. -/
def getAll (r : GormCacheRepository T ID) (tbl : CacheTable T) :
    Except Err (List T) × CacheTable T × List (StoreCall T ID) :=
  match tableValue tbl "all" with
  | some item =>
    match item.val with
    | .collection es => (.ok es, tbl, [])
    | .entity _ => (.error .castFault, tbl, [])
    | .notFound => (.error .castFault, tbl, [])
  | none =>
    match r.db.findAll with
    | .error e => (.error e, tbl, [.findAll])
    | .ok entities =>
      (.ok entities, tableAdd tbl "all" r.config.expiration (.collection entities),
        [.findAll])

/-- `Save`: write through to the store first; on success cache the entity
under `buildCacheKeyFromEntity` and evict the `"all"` key. -/
def save (r : GormCacheRepository T ID) (tbl : CacheTable T) (entity : T) :
    Except Err Unit × CacheTable T × List (StoreCall T ID) :=
  match r.db.saveEntity entity with
  | .error e => (.error e, tbl, [.saveEntity entity])
  | .ok _ =>
    (.ok (),
      tableDelete
        (tableAdd tbl (r.buildCacheKeyFromEntity entity) r.config.expiration
          (.entity entity))
        "all",
      [.saveEntity entity])

/-- `Delete`: delete in the store first; on success remove the per-id
cache entry and evict the `"all"` key. -/
def delete (r : GormCacheRepository T ID) (tbl : CacheTable T) (id : ID) :
    Except Err Unit × CacheTable T × List (StoreCall T ID) :=
  match r.db.deleteByID id with
  | .error e => (.error e, tbl, [.deleteByID id])
  | .ok _ =>
    (.ok (), tableDelete (tableDelete tbl (r.buildCacheKey id)) "all",
      [.deleteByID id])

/-- `ClearCache`: remove the per-id cache entry; always succeeds and never
touches the store. -/
def clearCache (r : GormCacheRepository T ID) (tbl : CacheTable T) (id : ID) :
    Except Err Unit × CacheTable T × List (StoreCall T ID) :=
  (.ok (), tableDelete tbl (r.buildCacheKey id), [])

/-- `ClearAllCache`: flush the whole cache table; always succeeds and never
touches the store. -/
def clearAllCache (r : GormCacheRepository T ID) (tbl : CacheTable T) :
    Except Err Unit × CacheTable T × List (StoreCall T ID) :=
  (.ok (), tableFlush tbl, [])

end GormCacheRepository

/-- Overwriting insertion into the result mapping `map[ID]*T` of
`BatchGet`. -/
def mapSet {T ID : Type} [DecidableEq ID] (m : List (ID × T)) (id : ID) (e : T) :
    List (ID × T) :=
  (id, e) :: m.filter (fun p => p.1 != id)

/-- Lookup in the result mapping of `BatchGet`. -/
def mapGet {T ID : Type} [DecidableEq ID] (m : List (ID × T)) (id : ID) : Option T :=
  List.lookup id m

namespace GormCacheRepository

variable {T ID : Type}

/-- The cache-scanning loop of `BatchGet`: ids with a live `entity` entry
go into the result mapping, ids with a live `notFound` marker are dropped,
uncached ids are appended to the pending list; a live entry of any other
shape would make the Go type assertion panic (`castFault`). -/
def batchScan [DecidableEq ID] (r : GormCacheRepository T ID) (tbl : CacheTable T)
    (result : List (ID × T)) (uncached : List ID) :
    List ID → Except Err (List (ID × T) × List ID)
  | [] => .ok (result, uncached)
  | id :: rest =>
    match tableValue tbl (r.buildCacheKey id) with
    | some item =>
      match item.val with
      | .notFound => r.batchScan tbl result uncached rest
      | .entity e => r.batchScan tbl (mapSet result id e) uncached rest
      | .collection _ => .error .castFault
    | none => r.batchScan tbl result (uncached ++ [id]) rest

/-- `BatchGet`: scan the cache, then issue one batched store query for the
pending ids (skipped when none are pending); every entity the query
returns is cached under `buildCacheKeyFromEntity`, and the result mapping
collected during the cache scan is returned. -/
def batchGet [DecidableEq ID] (r : GormCacheRepository T ID) (tbl : CacheTable T)
    (ids : List ID) :
    Except Err (List (ID × T)) × CacheTable T × List (StoreCall T ID) :=
  match r.batchScan tbl [] [] ids with
  | .error e => (.error e, tbl, [])
  | .ok (result, uncached) =>
    if uncached.isEmpty then
      (.ok result, tbl, [])
    else
      match r.db.findByIDs uncached with
      | .error e => (.error e, tbl, [.findByIDs uncached])
      | .ok entities =>
        (.ok result,
          entities.foldl
            (fun acc e =>
              tableAdd acc (r.buildCacheKeyFromEntity e) r.config.expiration
                (.entity e))
            tbl,
          [.findByIDs uncached])

end GormCacheRepository

/-- No id in the request list has a live cache entry of `collection` shape
under its key (such an entry would make the Go type assertions in the
`BatchGet` cache scan panic). -/
def noCollectionAt {T ID : Type} (r : GormCacheRepository T ID) (tbl : CacheTable T)
    (ids : List ID) : Prop :=
  ∀ id ∈ ids, ∀ es ls,
    tableValue tbl (r.buildCacheKey id) ≠ some ⟨CacheVal.collection es, ls⟩

/-- The entity a live `Present` cache entry holds for an id, if any. -/
def cachedPresent {T ID : Type} (r : GormCacheRepository T ID) (tbl : CacheTable T)
    (id : ID) : Option T :=
  match tableValue tbl (r.buildCacheKey id) with
  | some ⟨CacheVal.entity e, _⟩ => some e
  | _ => none

/-- The id has a live cache entry of the shape the single-get and batch
read paths expect: either a `Present` entity or the `Absent` marker. -/
def liveEntry {T ID : Type} (r : GormCacheRepository T ID) (tbl : CacheTable T)
    (id : ID) : Prop :=
  (∃ e ls, tableValue tbl (r.buildCacheKey id) = some ⟨CacheVal.entity e, ls⟩)
  ∨ (∃ ls, tableValue tbl (r.buildCacheKey id) = some ⟨CacheVal.notFound, ls⟩)

end Cache2Go

namespace Cache2Go

/-! ### Basic lemmas about table and mapping lookups -/

theorem lookup_filter_bne {α β : Type} [DecidableEq α] (l : List (α × β)) (k k0 : α) :
    List.lookup k (l.filter fun p => p.1 != k0) =
      if k = k0 then none else List.lookup k l := by
  induction l with
  | nil => simp
  | cons hd tl ih =>
    obtain ⟨a, b⟩ := hd
    by_cases hak : a = k0
    · subst hak
      have h1 : List.filter (fun p => p.1 != a) ((a, b) :: tl) =
          List.filter (fun p => p.1 != a) tl := by
        simp [List.filter_cons]
      rw [h1, ih]
      by_cases hk : k = a
      · rw [if_pos hk, if_pos hk]
      · rw [if_neg hk, if_neg hk, List.lookup_cons]
        have hb : (k == a) = false := beq_eq_false_iff_ne.mpr hk
        rw [hb]
    · have h1 : List.filter (fun p => p.1 != k0) ((a, b) :: tl) =
          (a, b) :: List.filter (fun p => p.1 != k0) tl := by
        simp [List.filter_cons, bne_iff_ne, hak]
      rw [h1, List.lookup_cons, List.lookup_cons, ih]
      by_cases hk : k = a
      · have hb : (k == a) = true := beq_iff_eq.mpr hk
        have hkk0 : ¬k = k0 := by simpa [hk] using hak
        simp [hb, hkk0]
      · have hb : (k == a) = false := beq_eq_false_iff_ne.mpr hk
        simp only [hb]

theorem tableValue_tableAdd {T : Type} (tbl : CacheTable T) (k1 k : String)
    (ls : Nat) (v : CacheVal T) :
    tableValue (tableAdd tbl k ls v) k1 =
      if k1 = k then some ⟨v, ls⟩ else tableValue tbl k1 := by
  by_cases h : k1 = k
  · subst h
    simp [tableValue, tableAdd, List.lookup]
  · have hb : (k1 == k) = false := by simpa [beq_eq_false_iff_ne] using h
    simp only [tableValue, tableAdd, List.lookup, hb, h, if_false]
    rw [lookup_filter_bne]
    simp [h]

theorem tableValue_tableDelete {T : Type} (tbl : CacheTable T) (k1 k : String) :
    tableValue (tableDelete tbl k) k1 =
      if k1 = k then none else tableValue tbl k1 := by
  simp only [tableValue, tableDelete]
  rw [lookup_filter_bne]

theorem mapGet_mapSet {T ID : Type} [DecidableEq ID] (m : List (ID × T))
    (id1 id : ID) (e : T) :
    mapGet (mapSet m id e) id1 = if id1 = id then some e else mapGet m id1 := by
  by_cases h : id1 = id
  · subst h
    simp [mapGet, mapSet, List.lookup]
  · have hb : (id1 == id) = false := by simpa [beq_eq_false_iff_ne] using h
    simp only [mapGet, mapSet, List.lookup, hb]
    rw [lookup_filter_bne]
    simp [h]

/-! ### Concrete instantiation used by the witnesses

The bundled example (`src/examples`, `src/unnamed/part_000`) instantiates
the repository at `T := User`, `ID := uint`, with primary key `"id"`;
`fmt.Sprintf("%v", id)` on a `uint` prints its decimal representation,
i.e. `Nat.repr`. -/

/-- A cut-down `User` entity from the bundled example. -/
structure User where
  id : Nat
  age : Nat
deriving DecidableEq

/-- A store oracle backed by a fixed list of users: `findByID` returns the
first user with the requested id or `recordNotFound`; `findAll` returns the
list; `findByIDs` filters it; writes always succeed. -/
def natStore (users : List User) : Store User Nat where
  findByID id :=
    match users.find? (fun u => u.id == id) with
    | some u => .ok u
    | none => .error .recordNotFound
  findAll := .ok users
  findByIDs ids := .ok (users.filter (fun u => ids.contains u.id))
  saveEntity _ := .ok ()
  deleteByID _ := .ok ()

/-- A store oracle whose every operation fails with the same hard error. -/
def downStore : Store User Nat where
  findByID _ := .error (.storeFailure "db down")
  findAll := .error (.storeFailure "db down")
  findByIDs _ := .error (.storeFailure "db down")
  saveEntity _ := .error (.storeFailure "db down")
  deleteByID _ := .error (.storeFailure "db down")

/-- The example repository over a fixed user list, with negative caching
enabled (the configuration of `NewUserCacheRepository`). -/
def demoRepo (users : List User) : GormCacheRepository User Nat where
  db := natStore users
  config := { tableName := "users_cache", expiration := 600, useNotFoundCache := true }
  fmtID := Nat.repr

/-- The example repository with negative caching disabled. -/
def demoRepoNoNeg (users : List User) : GormCacheRepository User Nat where
  db := natStore users
  config := { tableName := "users_cache", expiration := 600, useNotFoundCache := false }
  fmtID := Nat.repr

/-- The example repository over the failing store. -/
def downRepo : GormCacheRepository User Nat where
  db := downStore
  config := { tableName := "users_cache", expiration := 600, useNotFoundCache := true }
  fmtID := Nat.repr

end Cache2Go

namespace Cache2Go

open GormCacheRepository

/-! ### Claim theorems -/

/-- C3: for every id whose key has a live cache entry, `GetByID` makes no
store access: a `Present` entry is returned as is (and consequently a
second `GetByID` after any successful one returns the identical entity
with an empty store-call trace), and an `Absent` marker fails with
`recordNotFound` immediately. -/
theorem getByID_live_entry_no_store {T ID : Type} (r : GormCacheRepository T ID)
    (tbl : CacheTable T) (id : ID) :
    (∀ e ls, tableValue tbl (r.buildCacheKey id) = some ⟨CacheVal.entity e, ls⟩ →
        r.getByID tbl id = (.ok e, tbl, []))
    ∧ (∀ ls, tableValue tbl (r.buildCacheKey id) = some ⟨CacheVal.notFound, ls⟩ →
        r.getByID tbl id = (.error .recordNotFound, tbl, []))
    ∧ (∀ e tbl2 tr, r.getByID tbl id = (.ok e, tbl2, tr) →
        r.getByID tbl2 id = (.ok e, tbl2, [])) := by
  refine ⟨?_, ?_, ?_⟩
  · intro e ls h
    simp only [getByID, h]
  · intro ls h
    simp only [getByID, h]
  · intro e tbl2 tr h
    rcases hv : tableValue tbl (r.buildCacheKey id) with _ | ⟨v, ls⟩
    · rcases hs : r.db.findByID id with err | u
      · simp only [getByID, hv, hs] at h
        split at h <;> simp at h
      · simp only [getByID, hv, hs, Prod.mk.injEq, Except.ok.injEq] at h
        obtain ⟨he, htbl, _⟩ := h
        subst he
        subst htbl
        have hv2 : tableValue
            (tableAdd tbl (r.buildCacheKey id) r.config.expiration (CacheVal.entity u))
            (r.buildCacheKey id) = some ⟨CacheVal.entity u, r.config.expiration⟩ := by
          rw [tableValue_tableAdd, if_pos rfl]
        simp only [getByID, hv2]
    · cases v with
      | entity e0 =>
        simp only [getByID, hv, Prod.mk.injEq, Except.ok.injEq] at h
        obtain ⟨he, htbl, _⟩ := h
        subst he
        subst htbl
        simp only [getByID, hv]
      | notFound =>
        simp only [getByID, hv] at h
        simp at h
      | collection es =>
        simp only [getByID, hv] at h
        simp at h

/-- C3 witness: a cache with a live `Present` entry for id 1 serves the
entity from the cache with no store call. -/
theorem getByID_live_entry_no_store_witness :
    (demoRepo []).getByID [("1", ⟨CacheVal.entity ⟨1, 20⟩, 600⟩)] 1 =
      (.ok ⟨1, 20⟩, [("1", ⟨CacheVal.entity ⟨1, 20⟩, 600⟩)], []) :=
  (getByID_live_entry_no_store (demoRepo [])
    [("1", ⟨CacheVal.entity ⟨1, 20⟩, 600⟩)] 1).1 ⟨1, 20⟩ 600 rfl

end Cache2Go

namespace Cache2Go

open GormCacheRepository

/-- C4: on a cache miss `GetByID` queries the store by id. A not-found
result with negative caching enabled writes an `Absent` marker with the
configured TTL and returns `recordNotFound`, and the repeated call is then
answered from the cache with no further store call; with negative caching
disabled nothing is cached on not-found; any store error other than
not-found is propagated unmodified and nothing is cached. -/
theorem getByID_cache_miss_store_paths {T ID : Type} (r : GormCacheRepository T ID)
    (tbl : CacheTable T) (id : ID)
    (hmiss : tableValue tbl (r.buildCacheKey id) = none) :
    (r.config.useNotFoundCache = true →
      r.db.findByID id = .error .recordNotFound →
      r.getByID tbl id =
        (.error .recordNotFound,
          tableAdd tbl (r.buildCacheKey id) r.config.expiration CacheVal.notFound,
          [.findByID id])
      ∧ r.getByID
          (tableAdd tbl (r.buildCacheKey id) r.config.expiration CacheVal.notFound) id =
        (.error .recordNotFound,
          tableAdd tbl (r.buildCacheKey id) r.config.expiration CacheVal.notFound,
          []))
    ∧ (r.config.useNotFoundCache = false →
      r.db.findByID id = .error .recordNotFound →
      r.getByID tbl id = (.error .recordNotFound, tbl, [.findByID id]))
    ∧ (∀ err, err ≠ Err.recordNotFound →
      r.db.findByID id = .error err →
      r.getByID tbl id = (.error err, tbl, [.findByID id])) := by
  refine ⟨?_, ?_, ?_⟩
  · intro hneg hs
    constructor
    · simp [getByID, hmiss, hs, hneg]
    · have hv2 : tableValue
          (tableAdd tbl (r.buildCacheKey id) r.config.expiration CacheVal.notFound)
          (r.buildCacheKey id) = some ⟨CacheVal.notFound, r.config.expiration⟩ := by
        rw [tableValue_tableAdd, if_pos rfl]
      simp only [getByID, hv2]
  · intro hneg hs
    simp only [getByID, hmiss, hs]
    rw [if_neg]
    simp [hneg]
  · intro err hne hs
    simp only [getByID, hmiss, hs]
    rw [if_neg]
    intro hc
    exact hne hc.2

/-- C4 witness: a nonexistent id with negative caching on causes one store
call and a cached negative; disabled, nothing is cached; a hard store
error propagates unmodified. -/
theorem getByID_cache_miss_store_paths_witness :
    ((demoRepo []).getByID [] 7 =
      (.error .recordNotFound, [("7", ⟨CacheVal.notFound, 600⟩)], [.findByID 7])
     ∧ (demoRepo []).getByID [("7", ⟨CacheVal.notFound, 600⟩)] 7 =
      (.error .recordNotFound, [("7", ⟨CacheVal.notFound, 600⟩)], []))
    ∧ (demoRepoNoNeg []).getByID [] 7 = (.error .recordNotFound, [], [.findByID 7])
    ∧ downRepo.getByID [] 7 =
      (.error (.storeFailure "db down"), [], [.findByID 7]) := by
  refine ⟨?_, ?_, ?_⟩
  · exact (getByID_cache_miss_store_paths (demoRepo []) [] 7 rfl).1 rfl rfl
  · exact (getByID_cache_miss_store_paths (demoRepoNoNeg []) [] 7 rfl).2.1 rfl rfl
  · exact (getByID_cache_miss_store_paths downRepo [] 7 rfl).2.2
      (.storeFailure "db down") (by decide) rfl

/-- C5: `Save` and `Delete` always issue exactly the persistent-store
write as their only store call, and when that write fails the store's
error is propagated and the cache is left entirely unchanged. -/
theorem writeThrough_failure_leaves_cache {T ID : Type}
    (r : GormCacheRepository T ID) (tbl : CacheTable T) :
    (∀ (e : T), (r.save tbl e).2.2 = [.saveEntity e]
       ∧ ∀ err, r.db.saveEntity e = .error err →
           r.save tbl e = (.error err, tbl, [.saveEntity e]))
    ∧ (∀ (id : ID), (r.delete tbl id).2.2 = [.deleteByID id]
       ∧ ∀ err, r.db.deleteByID id = .error err →
           r.delete tbl id = (.error err, tbl, [.deleteByID id])) := by
  constructor
  · intro e
    constructor
    · rcases hs : r.db.saveEntity e with err | u <;> simp [save, hs]
    · intro err hs
      simp [save, hs]
  · intro id
    constructor
    · rcases hs : r.db.deleteByID id with err | u <;> simp [delete, hs]
    · intro err hs
      simp [delete, hs]

/-- C5 witness: against a failing store, `Save` and `Delete` return the
store error and leave a nonempty cache exactly as it was. -/
theorem writeThrough_failure_leaves_cache_witness :
    downRepo.save [("1", ⟨CacheVal.entity ⟨1, 20⟩, 600⟩)] ⟨2, 9⟩ =
      (.error (.storeFailure "db down"),
        [("1", ⟨CacheVal.entity ⟨1, 20⟩, 600⟩)], [.saveEntity ⟨2, 9⟩])
    ∧ downRepo.delete [("1", ⟨CacheVal.entity ⟨1, 20⟩, 600⟩)] 1 =
      (.error (.storeFailure "db down"),
        [("1", ⟨CacheVal.entity ⟨1, 20⟩, 600⟩)], [.deleteByID 1]) :=
  ⟨((writeThrough_failure_leaves_cache downRepo
      [("1", ⟨CacheVal.entity ⟨1, 20⟩, 600⟩)]).1 ⟨2, 9⟩).2 _ rfl,
   ((writeThrough_failure_leaves_cache downRepo
      [("1", ⟨CacheVal.entity ⟨1, 20⟩, 600⟩)]).2 1).2 _ rfl⟩

end Cache2Go

namespace Cache2Go

open GormCacheRepository

/-- Decimal digit characters are never the letter of the reserved key. -/
theorem digitChar_mod_ten_ne (m : Nat) : Nat.digitChar (m % 10) ≠ 'a' := by
  have h : m % 10 < 10 := Nat.mod_lt _ (by norm_num)
  set k := m % 10 with hk
  interval_cases k <;> decide

/-- Every character `toDigitsCore` emits beyond the seed accumulator is a
digit character of the base. -/
theorem toDigitsCore_chars (b : Nat) (fuel : Nat) :
    ∀ (n : Nat) (ds : List Char) (c : Char),
      c ∈ Nat.toDigitsCore b fuel n ds → c ∈ ds ∨ ∃ m, c = Nat.digitChar (m % b) := by
  induction fuel with
  | zero =>
    intro n ds c h
    exact .inl h
  | succ fuel ih =>
    intro n ds c h
    simp only [Nat.toDigitsCore] at h
    split at h
    · rcases List.mem_cons.mp h with h1 | h1
      · exact .inr ⟨n, h1⟩
      · exact .inl h1
    · rcases ih (n / b) (Nat.digitChar (n % b) :: ds) c h with h1 | h1
      · rcases List.mem_cons.mp h1 with h2 | h2
        · exact .inr ⟨n, h2⟩
        · exact .inl h2
      · exact .inr h1

/-- The decimal representation of a natural number is never the reserved
full-collection key `"all"`. -/
theorem natRepr_ne_all (n : Nat) : Nat.repr n ≠ "all" := by
  intro h
  have hdata : Nat.toDigits 10 n = ['a', 'l', 'l'] := by
    have h2 := congrArg String.data h
    have h3 : String.data "all" = ['a', 'l', 'l'] := rfl
    rw [h3] at h2
    simpa [Nat.repr, List.asString] using h2
  have hmem : 'a' ∈ Nat.toDigits 10 n := by
    rw [hdata]
    simp
  rcases toDigitsCore_chars 10 (n + 1) n [] 'a' hmem with h1 | h1
  · simp at h1
  · rcases h1 with ⟨m, hm⟩
    exact digitChar_mod_ten_ne m hm.symm

/-- C6: every successful `Save` evicts the `"all"` key, so a following
`GetAll` re-queries the store; every successful `Delete` evicts both the
`"all"` key and the per-id entry. -/
theorem write_invalidates_all_key {T ID : Type} (r : GormCacheRepository T ID)
    (tbl : CacheTable T) :
    (∀ (e : T) tbl2 tr, r.save tbl e = (.ok (), tbl2, tr) →
        tableValue tbl2 "all" = none ∧ (r.getAll tbl2).2.2 = [.findAll])
    ∧ (∀ (id : ID) tbl2 tr, r.delete tbl id = (.ok (), tbl2, tr) →
        tableValue tbl2 "all" = none
        ∧ tableValue tbl2 (r.buildCacheKey id) = none) := by
  constructor
  · intro e tbl2 tr h
    rcases hs : r.db.saveEntity e with err | u
    · simp [save, hs] at h
    · simp only [save, hs, Prod.mk.injEq] at h
      obtain ⟨_, htbl, _⟩ := h
      subst htbl
      have hall : tableValue
          (tableDelete
            (tableAdd tbl (r.buildCacheKeyFromEntity e) r.config.expiration
              (CacheVal.entity e)) "all") "all" = none := by
        rw [tableValue_tableDelete, if_pos rfl]
      refine ⟨hall, ?_⟩
      rcases hf : r.db.findAll with err | es <;> simp [getAll, hall, hf]
  · intro id tbl2 tr h
    rcases hs : r.db.deleteByID id with err | u
    · simp [delete, hs] at h
    · simp only [delete, hs, Prod.mk.injEq] at h
      obtain ⟨_, htbl, _⟩ := h
      subst htbl
      constructor
      · rw [tableValue_tableDelete, if_pos rfl]
      · rw [tableValue_tableDelete]
        by_cases hk : r.buildCacheKey id = "all"
        · rw [if_pos hk]
        · rw [if_neg hk, tableValue_tableDelete, if_pos rfl]

/-- C6 witness: saving into a cache holding a live `"all"` snapshot evicts
it and makes the next `GetAll` hit the store; deleting id 1 clears both
the `"all"` key and the `"1"` entry. -/
theorem write_invalidates_all_key_witness :
    (tableValue [("", ⟨CacheVal.entity (⟨1, 20⟩ : User), 600⟩)] "all" = none
      ∧ ((demoRepo [⟨1, 20⟩]).getAll
          [("", ⟨CacheVal.entity (⟨1, 20⟩ : User), 600⟩)]).2.2 = [.findAll])
    ∧ (tableValue ([] : CacheTable User) "all" = none
      ∧ tableValue ([] : CacheTable User)
          ((demoRepo [⟨1, 20⟩]).buildCacheKey 1) = none) := by
  constructor
  · exact (write_invalidates_all_key (demoRepo [⟨1, 20⟩])
      [("all", ⟨CacheVal.collection [⟨1, 20⟩], 600⟩)]).1
      ⟨1, 20⟩ [("", ⟨CacheVal.entity ⟨1, 20⟩, 600⟩)] [.saveEntity ⟨1, 20⟩] rfl
  · exact (write_invalidates_all_key (demoRepo [⟨1, 20⟩])
      [("all", ⟨CacheVal.collection [⟨1, 20⟩], 600⟩),
       ("1", ⟨CacheVal.entity ⟨1, 20⟩, 600⟩)]).2
      1 [] [.deleteByID 1] rfl

/-- C7: `ClearCache` removes exactly the per-id entry, touches no other
key and never the store, and always succeeds (also on an empty or
already-cleared cache); `ClearAllCache` flushes everything and always
succeeds; in the example instantiation with decimal `uint` keys, the
per-id key of `ClearCache` can never be the reserved `"all"` key, whose
entry is therefore always untouched. -/
theorem clearCache_frame {T ID : Type} (r : GormCacheRepository T ID)
    (tbl : CacheTable T) (id : ID) :
    r.clearCache tbl id = (.ok (), tableDelete tbl (r.buildCacheKey id), [])
    ∧ tableValue (r.clearCache tbl id).2.1 (r.buildCacheKey id) = none
    ∧ (∀ k, k ≠ r.buildCacheKey id →
        tableValue (r.clearCache tbl id).2.1 k = tableValue tbl k)
    ∧ r.clearAllCache tbl = (.ok (), [], [])
    ∧ (∀ (r2 : GormCacheRepository T Nat) (tbl2 : CacheTable T) (n : Nat),
        r2.fmtID = Nat.repr →
        r2.buildCacheKey n ≠ "all"
        ∧ tableValue (r2.clearCache tbl2 n).2.1 "all" = tableValue tbl2 "all") := by
  refine ⟨rfl, ?_, ?_, rfl, ?_⟩
  · show tableValue (tableDelete tbl (r.buildCacheKey id)) (r.buildCacheKey id) = none
    rw [tableValue_tableDelete, if_pos rfl]
  · intro k hk
    show tableValue (tableDelete tbl (r.buildCacheKey id)) k = tableValue tbl k
    rw [tableValue_tableDelete, if_neg hk]
  · intro r2 tbl2 n hfmt
    have hne : r2.buildCacheKey n ≠ "all" := by
      rw [buildCacheKey, hfmt]
      exact natRepr_ne_all n
    refine ⟨hne, ?_⟩
    show tableValue (tableDelete tbl2 (r2.buildCacheKey n)) "all" = tableValue tbl2 "all"
    rw [tableValue_tableDelete, if_neg]
    exact fun hc => hne hc.symm

/-- C7 witness: clearing id 1 on a two-entry cache removes only the `"1"`
entry, keeps the `"all"` entry, and clearing an empty cache succeeds. -/
theorem clearCache_frame_witness :
    (demoRepo []).clearCache
      [("1", ⟨CacheVal.entity ⟨1, 20⟩, 600⟩),
       ("all", ⟨CacheVal.collection [], 600⟩)] 1 =
      (.ok (), [("all", ⟨CacheVal.collection [], 600⟩)], [])
    ∧ tableValue
        ((demoRepo []).clearCache
          [("1", ⟨CacheVal.entity ⟨1, 20⟩, 600⟩),
           ("all", ⟨CacheVal.collection [], 600⟩)] 1).2.1 "all" =
        some ⟨CacheVal.collection [], 600⟩
    ∧ (demoRepo []).clearCache ([] : CacheTable User) 1 = (.ok (), [], [])
    ∧ (demoRepo []).clearAllCache ([] : CacheTable User) = (.ok (), [], []) := by
  refine ⟨?_, ?_, ?_, ?_⟩
  · exact ((clearCache_frame (demoRepo [])
      [("1", ⟨CacheVal.entity ⟨1, 20⟩, 600⟩),
       ("all", ⟨CacheVal.collection [], 600⟩)] 1).1)
  · have h := ((clearCache_frame (demoRepo [])
      [("1", ⟨CacheVal.entity ⟨1, 20⟩, 600⟩),
       ("all", ⟨CacheVal.collection [], 600⟩)] 1).2.2.1) "all" (by decide)
    rw [h]
    rfl
  · exact ((clearCache_frame (demoRepo []) ([] : CacheTable User) 1).1)
  · exact ((clearCache_frame (demoRepo []) ([] : CacheTable User) 1).2.2.2.1)

/-- C8: `GetAll` returns a live cached collection verbatim with no store
access; on a miss it fetches the collection, caches it under `"all"` with
the configured TTL and returns it; a store error during the fetch is
propagated unmodified and nothing is cached. -/
theorem getAll_paths {T ID : Type} (r : GormCacheRepository T ID)
    (tbl : CacheTable T) :
    (∀ es ls, tableValue tbl "all" = some ⟨CacheVal.collection es, ls⟩ →
        r.getAll tbl = (.ok es, tbl, []))
    ∧ (tableValue tbl "all" = none →
        (∀ es, r.db.findAll = .ok es →
            r.getAll tbl =
              (.ok es, tableAdd tbl "all" r.config.expiration (CacheVal.collection es),
                [.findAll]))
        ∧ (∀ err, r.db.findAll = .error err →
            r.getAll tbl = (.error err, tbl, [.findAll]))) := by
  refine ⟨?_, fun hmiss => ⟨?_, ?_⟩⟩
  · intro es ls h
    simp only [getAll, h]
  · intro es hs
    simp only [getAll, hmiss, hs]
  · intro err hs
    simp only [getAll, hmiss, hs]

/-- C8 witness: a live `"all"` entry is served with no store call; on an
empty cache the collection is fetched and cached; a failing store
propagates its error and caches nothing. -/
theorem getAll_paths_witness :
    (demoRepo []).getAll [("all", ⟨CacheVal.collection [⟨1, 20⟩], 600⟩)] =
      (.ok [⟨1, 20⟩], [("all", ⟨CacheVal.collection [⟨1, 20⟩], 600⟩)], [])
    ∧ (demoRepo [⟨1, 20⟩]).getAll [] =
      (.ok [⟨1, 20⟩], [("all", ⟨CacheVal.collection [⟨1, 20⟩], 600⟩)], [.findAll])
    ∧ downRepo.getAll [] = (.error (.storeFailure "db down"), [], [.findAll]) := by
  refine ⟨?_, ?_, ?_⟩
  · exact (getAll_paths (demoRepo [])
      [("all", ⟨CacheVal.collection [⟨1, 20⟩], 600⟩)]).1 [⟨1, 20⟩] 600 rfl
  · exact ((getAll_paths (demoRepo [⟨1, 20⟩]) []).2 rfl).1 [⟨1, 20⟩] rfl
  · exact ((getAll_paths downRepo []).2 rfl).2 (.storeFailure "db down") rfl

end Cache2Go

namespace Cache2Go

open GormCacheRepository

/-- When no requested id has a collection-shaped cache entry, the cache
scan of `BatchGet` never panics. -/
theorem batchScan_ok_of_noCollection {T ID : Type} [DecidableEq ID]
    (r : GormCacheRepository T ID) (tbl : CacheTable T) :
    ∀ (ids : List ID), noCollectionAt r tbl ids →
      ∀ (res : List (ID × T)) (unc : List ID),
        ∃ p, r.batchScan tbl res unc ids = .ok p := by
  intro ids
  induction ids with
  | nil =>
    intro h res unc
    exact ⟨(res, unc), rfl⟩
  | cons id rest ih =>
    intro h res unc
    have hrest : noCollectionAt r tbl rest := fun i hi => h i (List.mem_cons_of_mem _ hi)
    rcases hv : tableValue tbl (r.buildCacheKey id) with _ | ⟨v, ls⟩
    · obtain ⟨p, hp⟩ := ih hrest res (unc ++ [id])
      refine ⟨p, ?_⟩
      simp only [batchScan, hv]
      exact hp
    · cases v with
      | entity e =>
        obtain ⟨p, hp⟩ := ih hrest (mapSet res id e) unc
        refine ⟨p, ?_⟩
        simp only [batchScan, hv]
        exact hp
      | notFound =>
        obtain ⟨p, hp⟩ := ih hrest res unc
        refine ⟨p, ?_⟩
        simp only [batchScan, hv]
        exact hp
      | collection es =>
        exact absurd hv (h id (List.mem_cons_self _ _) es ls)

/-- Every cache entry the post-query population loop of `BatchGet` writes
holds an entity, so any negative marker found afterwards was already in
the table before. -/
theorem entityFold_no_new_notFound {T ID : Type} (r : GormCacheRepository T ID) :
    ∀ (es : List T) (tbl : CacheTable T) (k : String) (item : CacheItem T),
      tableValue
        (es.foldl
          (fun acc e =>
            tableAdd acc (r.buildCacheKeyFromEntity e) r.config.expiration
              (CacheVal.entity e))
          tbl) k = some item →
      item.val = CacheVal.notFound →
      tableValue tbl k = some item := by
  intro es
  induction es with
  | nil =>
    intro tbl k item h _
    exact h
  | cons e rest ih =>
    intro tbl k item h hnf
    simp only [List.foldl_cons] at h
    have h2 := ih _ k item h hnf
    rw [tableValue_tableAdd] at h2
    by_cases hk : k = r.buildCacheKeyFromEntity e
    · rw [if_pos hk] at h2
      injection h2 with h3
      rw [← h3] at hnf
      simp at hnf
    · rw [if_neg hk] at h2
      exact h2

/-- The value of `BatchGet` as a function of the cache-scan outcome. -/
theorem batchGet_eq_of_scan {T ID : Type} [DecidableEq ID]
    (r : GormCacheRepository T ID) (tbl : CacheTable T) (ids : List ID)
    (res : List (ID × T)) (unc : List ID)
    (hscan : r.batchScan tbl [] [] ids = .ok (res, unc)) :
    r.batchGet tbl ids =
      if unc.isEmpty then (.ok res, tbl, [])
      else
        match r.db.findByIDs unc with
        | .error e => (.error e, tbl, [.findByIDs unc])
        | .ok es =>
          (.ok res,
            es.foldl
              (fun acc e =>
                tableAdd acc (r.buildCacheKeyFromEntity e) r.config.expiration
                  (CacheVal.entity e))
              tbl,
            [.findByIDs unc]) := by
  simp only [batchGet, hscan]

/-- C9: `BatchGet` never fails merely because ids resolve to nothing:
whenever the cache scan completes, it fails exactly when the batched store
query returns an error, in which case no partial mapping is returned and
the cache is unchanged; ids resolving to nothing are simply left out of
the mapping; and no `Absent` negative marker is ever written by the batch
path, whatever the negative-caching configuration. -/
theorem batchGet_error_discipline {T ID : Type} [DecidableEq ID]
    (r : GormCacheRepository T ID) (tbl : CacheTable T) (ids : List ID)
    (hok : noCollectionAt r tbl ids) :
    (∃ p, r.batchScan tbl [] [] ids = .ok p)
    ∧ (∀ res unc, r.batchScan tbl [] [] ids = .ok (res, unc) →
        (∀ err, (r.batchGet tbl ids).1 = .error err →
          r.db.findByIDs unc = .error err
          ∧ r.batchGet tbl ids = (.error err, tbl, [.findByIDs unc]))
        ∧ (unc = [] → r.batchGet tbl ids = (.ok res, tbl, []))
        ∧ (∀ es, r.db.findByIDs unc = .ok es → (r.batchGet tbl ids).1 = .ok res))
    ∧ (∀ res2 tbl2 tr, r.batchGet tbl ids = (res2, tbl2, tr) →
        ∀ k item, tableValue tbl2 k = some item → item.val = CacheVal.notFound →
          tableValue tbl k = some item) := by
  refine ⟨batchScan_ok_of_noCollection r tbl ids hok [] [], ?_, ?_⟩
  · intro res unc hscan
    have heq := batchGet_eq_of_scan r tbl ids res unc hscan
    refine ⟨?_, ?_, ?_⟩
    · intro err herr
      cases unc with
      | nil =>
        rw [heq] at herr
        simp at herr
      | cons u rest =>
        rcases hf : r.db.findByIDs (u :: rest) with err2 | es
        · rw [heq] at herr
          simp only [List.isEmpty_cons, Bool.false_eq_true, if_false, hf] at herr
          have herr2 : err2 = err := by simpa using herr
          subst herr2
          refine ⟨rfl, ?_⟩
          rw [heq]
          simp [hf]
        · rw [heq] at herr
          simp [hf] at herr
    · intro huncnil
      subst huncnil
      rw [heq]
      simp
    · intro es hf
      cases unc with
      | nil =>
        rw [heq]
        simp
      | cons u rest =>
        rw [heq]
        simp [hf]
  · intro res2 tbl2 tr h k item hval hnf
    have htbl2 : (r.batchGet tbl ids).2.1 = tbl2 := by rw [h]
    rcases hscan : r.batchScan tbl [] [] ids with e2 | ⟨res, unc⟩
    · have hsame : (r.batchGet tbl ids).2.1 = tbl := by
        simp only [batchGet, hscan]
      rw [← htbl2, hsame] at hval
      exact hval
    · have heq := batchGet_eq_of_scan r tbl ids res unc hscan
      cases unc with
      | nil =>
        have hsame : (r.batchGet tbl ids).2.1 = tbl := by
          rw [heq]
          simp
        rw [← htbl2, hsame] at hval
        exact hval
      | cons u rest =>
        rcases hf : r.db.findByIDs (u :: rest) with err2 | es
        · have hsame : (r.batchGet tbl ids).2.1 = tbl := by
            rw [heq]
            simp [hf]
          rw [← htbl2, hsame] at hval
          exact hval
        · have hfold : (r.batchGet tbl ids).2.1 =
              es.foldl
                (fun acc e =>
                  tableAdd acc (r.buildCacheKeyFromEntity e) r.config.expiration
                    (CacheVal.entity e))
                tbl := by
            rw [heq]
            simp [hf]
          rw [← htbl2, hfold] at hval
          exact entityFold_no_new_notFound r es tbl k item hval hnf

end Cache2Go

namespace Cache2Go

open GormCacheRepository

/-- C9 witness: a failing batched query yields the store's error with no
partial mapping and an unchanged cache; an id resolving to nothing leaves
the call successful with the id simply omitted. -/
theorem batchGet_error_discipline_witness :
    downRepo.batchGet ([] : CacheTable User) [1] =
      (.error (.storeFailure "db down"), [], [.findByIDs [1]])
    ∧ ((demoRepo [⟨2, 25⟩]).batchGet ([] : CacheTable User) [3]).1 = .ok [] := by
  constructor
  · have hok : noCollectionAt downRepo ([] : CacheTable User) [1] := by
      intro id hid es ls
      simp [tableValue]
    exact (((batchGet_error_discipline downRepo ([] : CacheTable User) [1] hok).2.1
      [] [1] rfl).1 (.storeFailure "db down") rfl).2
  · have hok : noCollectionAt (demoRepo [⟨2, 25⟩]) ([] : CacheTable User) [3] := by
      intro id hid es ls
      simp [tableValue]
    exact ((batchGet_error_discipline (demoRepo [⟨2, 25⟩]) ([] : CacheTable User) [3]
      hok).2.1 [] [3] rfl).2.2 [] rfl

/-- When every requested id has a live entity or negative entry, the cache
scan of `BatchGet` succeeds, leaves the pending list untouched, and its
result mapping holds exactly the `Present`-cached ids on top of the seed
mapping. -/
theorem batchScan_all_live {T ID : Type} [DecidableEq ID]
    (r : GormCacheRepository T ID) (tbl : CacheTable T) :
    ∀ (ids : List ID) (res0 : List (ID × T)) (unc0 : List ID),
      (∀ id ∈ ids, liveEntry r tbl id) →
      ∃ res, r.batchScan tbl res0 unc0 ids = .ok (res, unc0)
        ∧ ∀ id1, mapGet res id1 =
            if id1 ∈ ids ∧ (cachedPresent r tbl id1).isSome
            then cachedPresent r tbl id1
            else mapGet res0 id1 := by
  intro ids
  induction ids with
  | nil =>
    intro res0 unc0 h
    refine ⟨res0, rfl, ?_⟩
    intro id1
    simp
  | cons id rest ih =>
    intro res0 unc0 h
    have hid := h id (List.mem_cons_self _ _)
    have hrest : ∀ i ∈ rest, liveEntry r tbl i :=
      fun i hi => h i (List.mem_cons_of_mem _ hi)
    rcases hid with ⟨e, ls, hv⟩ | ⟨ls, hv⟩
    · obtain ⟨res, hscan, hres⟩ := ih (mapSet res0 id e) unc0 hrest
      have hcp : cachedPresent r tbl id = some e := by
        simp [cachedPresent, hv]
      refine ⟨res, ?_, ?_⟩
      · simp only [batchScan, hv]
        exact hscan
      · intro id1
        rw [hres id1, mapGet_mapSet]
        by_cases h2 : id1 ∈ rest ∧ (cachedPresent r tbl id1).isSome
        · rw [if_pos h2, if_pos ⟨List.mem_cons_of_mem _ h2.1, h2.2⟩]
        · rw [if_neg h2]
          by_cases h1 : id1 = id
          · subst h1
            rw [if_pos rfl,
              if_pos ⟨List.mem_cons_self _ _, by rw [hcp]; rfl⟩, hcp]
          · rw [if_neg h1, if_neg]
            intro hc
            rcases List.mem_cons.mp hc.1 with h3 | h3
            · exact h1 h3
            · exact h2 ⟨h3, hc.2⟩
    · obtain ⟨res, hscan, hres⟩ := ih res0 unc0 hrest
      have hcp : cachedPresent r tbl id = none := by
        simp [cachedPresent, hv]
      refine ⟨res, ?_, ?_⟩
      · simp only [batchScan, hv]
        exact hscan
      · intro id1
        rw [hres id1]
        by_cases h2 : id1 ∈ rest ∧ (cachedPresent r tbl id1).isSome
        · rw [if_pos h2, if_pos ⟨List.mem_cons_of_mem _ h2.1, h2.2⟩]
        · rw [if_neg h2, if_neg]
          intro hc
          rcases List.mem_cons.mp hc.1 with h3 | h3
          · subst h3
            rw [hcp] at hc
            exact absurd hc.2 (by simp)
          · exact h2 ⟨h3, hc.2⟩

/-- C10: when every requested id has a live cache entry (`Present` or
`Absent`), and in particular for the empty id list, `BatchGet` issues no
store query at all, leaves the cache unchanged, and succeeds with a
mapping holding exactly the `Present`-cached ids. -/
theorem batchGet_all_cached_no_store {T ID : Type} [DecidableEq ID]
    (r : GormCacheRepository T ID) (tbl : CacheTable T) (ids : List ID)
    (h : ∀ id ∈ ids, liveEntry r tbl id) :
    ∃ res, r.batchGet tbl ids = (.ok res, tbl, [])
      ∧ ∀ id1 e, (mapGet res id1 = some e ↔
          (id1 ∈ ids ∧ ∃ ls, tableValue tbl (r.buildCacheKey id1) =
            some ⟨CacheVal.entity e, ls⟩)) := by
  obtain ⟨res, hscan, hres⟩ := batchScan_all_live r tbl ids [] [] h
  refine ⟨res, ?_, ?_⟩
  · simp only [batchGet, hscan, List.isEmpty_nil, if_true]
  · intro id1 e
    rw [hres id1]
    constructor
    · intro hsome
      by_cases hc : id1 ∈ ids ∧ (cachedPresent r tbl id1).isSome
      · rw [if_pos hc] at hsome
        refine ⟨hc.1, ?_⟩
        unfold cachedPresent at hsome
        rcases hv : tableValue tbl (r.buildCacheKey id1) with _ | ⟨v, ls⟩
        · rw [hv] at hsome
          simp at hsome
        · rw [hv] at hsome
          cases v with
          | entity e0 =>
            simp only [Option.some.injEq] at hsome
            subst hsome
            exact ⟨ls, rfl⟩
          | notFound =>
            simp at hsome
          | collection es =>
            simp at hsome
      · rw [if_neg hc] at hsome
        simp [mapGet] at hsome
    · rintro ⟨hmem, ls, hv⟩
      have hcp : cachedPresent r tbl id1 = some e := by
        simp [cachedPresent, hv]
      rw [if_pos ⟨hmem, by rw [hcp]; rfl⟩, hcp]

/-- C10 witness: with id 1 cached `Present` and id 2 cached `Absent`,
`BatchGet [1, 2]` touches no store and returns exactly the mapping for
id 1. -/
theorem batchGet_all_cached_no_store_witness :
    (demoRepo []).batchGet
      [("1", ⟨CacheVal.entity (⟨1, 20⟩ : User), 600⟩), ("2", ⟨CacheVal.notFound, 600⟩)]
      [1, 2] =
      (.ok [(1, ⟨1, 20⟩)],
       [("1", ⟨CacheVal.entity (⟨1, 20⟩ : User), 600⟩), ("2", ⟨CacheVal.notFound, 600⟩)],
       []) := by
  have hlive : ∀ id ∈ ([1, 2] : List Nat),
      liveEntry (demoRepo [])
        [("1", ⟨CacheVal.entity (⟨1, 20⟩ : User), 600⟩),
         ("2", ⟨CacheVal.notFound, 600⟩)] id := by
    intro id hid
    fin_cases hid
    · exact Or.inl ⟨⟨1, 20⟩, 600, rfl⟩
    · exact Or.inr ⟨600, rfl⟩
  obtain ⟨res, heq, hres⟩ := batchGet_all_cached_no_store (demoRepo [])
    [("1", ⟨CacheVal.entity (⟨1, 20⟩ : User), 600⟩), ("2", ⟨CacheVal.notFound, 600⟩)]
    [1, 2] hlive
  have hcomp : (demoRepo []).batchGet
      [("1", ⟨CacheVal.entity (⟨1, 20⟩ : User), 600⟩), ("2", ⟨CacheVal.notFound, 600⟩)]
      [1, 2] =
      (.ok [(1, ⟨1, 20⟩)],
       [("1", ⟨CacheVal.entity (⟨1, 20⟩ : User), 600⟩), ("2", ⟨CacheVal.notFound, 600⟩)],
       []) := rfl
  have hpin : res = [(1, ⟨1, 20⟩)] := by
    have h4 := heq.symm.trans hcomp
    simpa using congrArg Prod.fst h4
  rw [hpin] at heq
  exact heq

/-- C1: the claim that a successful `Save` caches the entity under its own
per-id key fails on the code: `buildCacheKeyFromEntity` is an
unimplemented stub returning `""`, so `Save` writes the entity under the
empty-string key, the per-id key stays cold, and the `GetByID` of the
just-saved id still issues a store query instead of hitting the cache. -/
theorem save_uses_stub_key_not_per_id_key :
    (demoRepo [⟨1, 20⟩]).save [] ⟨1, 20⟩ =
      (.ok (), [("", ⟨CacheVal.entity (⟨1, 20⟩ : User), 600⟩)],
        [.saveEntity ⟨1, 20⟩])
    ∧ (demoRepo [⟨1, 20⟩]).buildCacheKeyFromEntity ⟨1, 20⟩ = ""
    ∧ (demoRepo [⟨1, 20⟩]).buildCacheKey 1 = "1"
    ∧ tableValue ((demoRepo [⟨1, 20⟩]).save [] ⟨1, 20⟩).2.1
        ((demoRepo [⟨1, 20⟩]).buildCacheKey 1) = none
    ∧ ((demoRepo [⟨1, 20⟩]).getByID
        ((demoRepo [⟨1, 20⟩]).save [] ⟨1, 20⟩).2.1 1).2.2 = [.findByID 1] :=
  ⟨rfl, rfl, rfl, rfl, rfl⟩

/-- C2: the claim that `BatchGet` inserts every store-fetched entity into
the result mapping fails on the code: for ids `[1, 2, 3]` with id 1 cached
`Present`, id 2 in the store only and id 3 absent everywhere, exactly one
batched query covering `[2, 3]` is issued as claimed, but the fetched
entity for id 2 is cached under the stub key `""` and never inserted into
the mapping, which therefore contains only id 1. -/
theorem batchGet_drops_fetched_entities :
    (demoRepo [⟨1, 20⟩, ⟨2, 25⟩]).batchGet
      [("1", ⟨CacheVal.entity (⟨1, 20⟩ : User), 600⟩)] [1, 2, 3] =
      (.ok [(1, ⟨1, 20⟩)],
       [("", ⟨CacheVal.entity (⟨2, 25⟩ : User), 600⟩),
        ("1", ⟨CacheVal.entity (⟨1, 20⟩ : User), 600⟩)],
       [.findByIDs [2, 3]])
    ∧ mapGet [((1 : Nat), (⟨1, 20⟩ : User))] 2 = none :=
  ⟨rfl, rfl⟩

end Cache2Go
